import Mathlib

/-!
Verification of the doc-retrieval extraction pipeline.

Shallow embedding of the core components of the repository:

* `RateLimiter` — src/doc_retrieval/utils/rate_limiter.py.  Float arithmetic
  is modelled over `ℚ`; the operations used (doubling, halving, `min`, `max`
  against the constant `5.0`) are exact in binary floating point, so the
  rational model is faithful.
* `FetchResult` / `fetch_with_retry` — src/doc_retrieval/fetcher/base.py.
  The abstract `fetch` coroutine is modelled as an oracle `ℕ → FetchResult`
  giving the result of the i-th call; sleeping between attempts only affects
  timing, not results, and is omitted.
* `ContentExtractor` — src/doc_retrieval/extractor/main_content.py.  HTML is
  modelled as a forest of element/text nodes (`HForest`); BeautifulSoup's
  `lxml` document wrapper elements are treated transparently.  The external
  extraction libraries (trafilatura, readability, soup selector matching)
  are modelled as oracle results, since the claims are about the fallback
  chain and the cleanup pass, not about the libraries themselves.
* `Orchestrator.run` / `_process_page` — src/doc_retrieval/orchestrator.py.
  URLs are modelled at the `urllib.parse` component level (`ParsedUrl`);
  the concurrent tasks append to the shared result exactly once each under
  cooperative scheduling, so the run is modelled as a sequential fold.
-/

set_option maxHeartbeats 1000000

namespace DocRetrieval

/-! ## RateLimiter (src/doc_retrieval/utils/rate_limiter.py)

State relevant to the adaptive-delay claims: `delay_seconds`,
`_original_delay`, `backoff_count`, `peak_delay`.  The semaphore, the
pacing lock and `_last_request_time` only affect timing and are omitted. -/

structure RateLimiter where
  delay_seconds : ℚ
  original_delay : ℚ
  backoff_count : ℕ
  peak_delay : ℚ
deriving DecidableEq

/-- `_MAX_DELAY = 5.0`, the upper bound for adaptive back-off. -/
def MAX_DELAY : ℚ := 5

/-- `RateLimiter.__init__`: `delay_seconds = original_delay = peak_delay = d`,
`backoff_count = 0`. -/
def RateLimiter.init (d : ℚ) : RateLimiter :=
  { delay_seconds := d, original_delay := d, backoff_count := 0, peak_delay := d }

/-- `back_off()`: `delay = min(delay * 2, _MAX_DELAY)`; `backoff_count += 1`;
`peak_delay = max(peak_delay, delay)`. -/
def RateLimiter.back_off (r : RateLimiter) : RateLimiter :=
  let d := min (r.delay_seconds * 2) MAX_DELAY
  { r with delay_seconds := d, backoff_count := r.backoff_count + 1,
           peak_delay := max r.peak_delay d }

/-- `ease_off()`: `delay = max(delay / 2, original_delay)`. -/
def RateLimiter.ease_off (r : RateLimiter) : RateLimiter :=
  { r with delay_seconds := max (r.delay_seconds / 2) r.original_delay }

/-- `is_throttled`: `delay_seconds > original_delay`. -/
def RateLimiter.is_throttled (r : RateLimiter) : Prop :=
  r.original_delay < r.delay_seconds

/-- An adaptive-pacing call made on the shared limiter during a run. -/
inductive LimiterOp where
  | backoff
  | easeoff
deriving DecidableEq

/-- Apply one adaptive-pacing call. -/
def LimiterOp.apply (r : RateLimiter) : LimiterOp → RateLimiter
  | .backoff => r.back_off
  | .easeoff => r.ease_off

/-- A sequence of `back_off` / `ease_off` calls applied to a limiter state. -/
def runOps (r : RateLimiter) (ops : List LimiterOp) : RateLimiter :=
  ops.foldl LimiterOp.apply r

/-! ## FetchResult and retry policy (src/doc_retrieval/fetcher/base.py) -/

structure FetchResult where
  url : String
  final_url : String
  html : String
  status_code : Int
  error : Option String := none
  retry_after : Option ℚ := none
  attempts : ℕ := 1
deriving DecidableEq

/-- Python truthiness of the `error: str | None` field: truthy iff present
and non-empty. -/
def errTruthy : Option String → Bool
  | none => false
  | some s => !(s == "")

/-- `FetchResult.success`: `status_code >= 200 and status_code < 400 and not error`. -/
def FetchResult.success (r : FetchResult) : Bool :=
  decide (200 ≤ r.status_code) && decide (r.status_code < 400) && !(errTruthy r.error)

/-- `BaseFetcher._is_retryable`: HTTP 429, HTTP >= 500, or status 0 with a
(truthy) error message. -/
def is_retryable (r : FetchResult) : Bool :=
  decide (r.status_code = 429) || decide (500 ≤ r.status_code) ||
    (decide (r.status_code = 0) && errTruthy r.error)

/-- The placeholder result built before the retry loop
(`FetchResult(url=url, final_url=url, html="", status_code=0, error="no attempts")`). -/
def noAttemptsResult (url : String) : FetchResult :=
  { url := url, final_url := url, html := "", status_code := 0, error := some "no attempts" }

/-- The assignment `result.attempts = attempt + 1`: the same result with its
`attempts` field overwritten. -/
def stamp (r : FetchResult) (n : ℕ) : FetchResult :=
  { r with attempts := n }

/-- The body of `fetch_with_retry`'s `for attempt in range(max_retries + 1)` loop.
`fuel` is the number of loop iterations still allowed, `attempt` the index of
the next attempt, `last` the most recent result.  Each iteration fetches,
stamps `attempts = attempt + 1`, returns on success or on a non-retryable
failure, and otherwise loops (the inter-attempt sleep only affects timing).
The second component counts the fetch calls performed overall. -/
def retryLoop (fetch : ℕ → FetchResult) : ℕ → ℕ → FetchResult → FetchResult × ℕ
  | 0, attempt, last => (last, attempt)
  | fuel + 1, attempt, _ =>
    let r := stamp (fetch attempt) (attempt + 1)
    if r.success then (r, attempt + 1)
    else if is_retryable r then retryLoop fetch fuel (attempt + 1) r
    else (r, attempt + 1)

/-- `BaseFetcher.fetch_with_retry(url, max_retries, base_delay)`.  `base_delay`
only feeds the inter-attempt sleep and does not influence results.  Returns
the final result together with the number of `fetch` calls performed. -/
def fetch_with_retry (fetch : ℕ → FetchResult) (url : String) (max_retries : ℕ)
    (_base_delay : ℚ) : FetchResult × ℕ :=
  retryLoop fetch (max_retries + 1) 0 (noAttemptsResult url)

/-! ## HTML model (src/doc_retrieval/extractor/main_content.py)

An HTML document fragment is a forest of sibling nodes; a node is either a
text node or an element with a tag and a child forest.  Attributes carry no
weight in the cleanup pass and are omitted.  The `html` field of
`ExtractedContent` is represented by its parse forest, so the
serialize/re-parse round trip of the Python code is the identity here. -/

inductive HForest where
  | nil : HForest
  | textCons (s : String) (rest : HForest) : HForest
  | elemCons (tag : String) (children : HForest) (rest : HForest) : HForest
deriving DecidableEq

/-- Python's `str.strip()`: drop leading and trailing whitespace. -/
def strip (s : String) : String :=
  String.mk (((s.data.dropWhile Char.isWhitespace).reverse.dropWhile Char.isWhitespace).reverse)

/-- Python's `str.lower()` (over the character list). -/
def pyLower (s : String) : String :=
  String.mk (s.data.map Char.toLower)

/-- The stripped, non-empty text strings of a forest in document order; these
are the pieces BeautifulSoup's `get_text(separator=" ", strip=True)` joins. -/
def textPieces : HForest → List String
  | .nil => []
  | .textCons s rest => if strip s = "" then textPieces rest else strip s :: textPieces rest
  | .elemCons _ children rest => textPieces children ++ textPieces rest

/-- `get_text(separator=" ", strip=True)` on a forest. -/
def getText (f : HForest) : String :=
  String.intercalate " " (textPieces f)

/-- `elem.find(["img", "video", "audio", "iframe"])` succeeds: some element of
the forest (at any depth) has one of the embedded-media tags. -/
def hasMediaElem : HForest → Bool
  | .nil => false
  | .textCons _ rest => hasMediaElem rest
  | .elemCons tag children rest =>
    (tag == "img" || tag == "video" || tag == "audio" || tag == "iframe")
      || hasMediaElem children || hasMediaElem rest

/-- Some element of the forest (at any depth) is an `img`. -/
def hasImgElem : HForest → Bool
  | .nil => false
  | .textCons _ rest => hasImgElem rest
  | .elemCons tag children rest =>
    (tag == "img") || hasImgElem children || hasImgElem rest

/-- `ContentExtractor._PRESERVE_TAGS`. -/
def PRESERVE_TAGS : List String :=
  ["details", "summary",
   "table", "thead", "tbody", "tfoot", "tr", "th", "td",
   "ul", "ol", "li", "dl", "dt", "dd",
   "pre", "code",
   "svg", "path"]

/-- The bottom-up empty-element removal loop of `_clean_content`
(`for elem in reversed(soup.find_all())`).  Reverse preorder processes every
descendant before its ancestor, and sibling subtrees are independent, so the
loop is equivalent to this recursion: clean the children, then decide the
element itself.  An element is kept if its tag is preserved, or is one of
`img`/`br`/`hr`, or it still has visible text, or it still contains an
embedded-media descendant; otherwise it is decomposed. -/
def cleanForest : HForest → HForest
  | .nil => .nil
  | .textCons s rest => .textCons s (cleanForest rest)
  | .elemCons tag children rest =>
    let cs := cleanForest children
    let rs := cleanForest rest
    if tag ∈ PRESERVE_TAGS then .elemCons tag cs rs
    else if tag ∈ ["img", "br", "hr"] then .elemCons tag cs rs
    else if textPieces cs = [] ∧ hasMediaElem cs = false then rs
    else .elemCons tag cs rs

/-- `soup.select(selector).decompose()` for each configured remove selector.
Selectors are modelled as bare tag-name selectors (the general CSS engine is
out of scope); every subtree rooted at a matching tag is removed. -/
def removeTags (sels : List String) : HForest → HForest
  | .nil => .nil
  | .textCons s rest => .textCons s (removeTags sels rest)
  | .elemCons tag children rest =>
    if tag ∈ sels then removeTags sels rest
    else .elemCons tag (removeTags sels children) (removeTags sels rest)

/-- No element of the forest (at any depth) has a tag in `sels`. -/
def tagFree (sels : List String) : HForest → Bool
  | .nil => true
  | .textCons _ rest => tagFree sels rest
  | .elemCons tag children rest =>
    !(decide (tag ∈ sels)) && tagFree sels children && tagFree sels rest

/-! ## ContentExtractor (src/doc_retrieval/extractor/main_content.py) -/

/-- The extraction-relevant part of `ExtractorConfig` (src/doc_retrieval/config.py). -/
structure ExtractorConfig where
  content_selectors : List String
  remove_selectors : List String
  min_content_length : ℕ

structure ExtractedContent where
  html : HForest
  title : Option String := none
  description : Option String := none
  text : Option String := none
  extraction_method : Option String := none
deriving DecidableEq

/-- `ContentExtractor._clean_content`: return unchanged when `html` is empty;
otherwise re-apply the remove selectors, run the bottom-up pruning pass,
recompute the plain text, and finally reject
(`ExtractedContent(html="", title=..., text="")`) when the new text is truthy
(non-empty) yet shorter than `min_content_length`. -/
def clean_content (cfg : ExtractorConfig) (content : ExtractedContent) : ExtractedContent :=
  if content.html = .nil then content
  else if getText (cleanForest (removeTags cfg.remove_selectors content.html)) ≠ "" ∧
      (getText (cleanForest (removeTags cfg.remove_selectors content.html))).length
        < cfg.min_content_length then
    { html := .nil, title := content.title, text := some "" }
  else
    { content with
      html := cleanForest (removeTags cfg.remove_selectors content.html),
      text := some (getText (cleanForest (removeTags cfg.remove_selectors content.html))) }

/-- The candidate each extraction strategy produces for the (pre-cleaned)
input page, modelled as oracles: `_extract_with_soup(..., require_selector=True)`,
`_extract_with_trafilatura`, `_extract_with_readability`, and
`_extract_with_soup(...)` (body-level fallback).  A strategy that fails
internally or finds nothing yields `none`. -/
structure StrategyResults where
  selector_soup : Option ExtractedContent
  trafilatura : Option ExtractedContent
  readability : Option ExtractedContent
  body_soup : Option ExtractedContent

/-- The guard `if content and content.text and len(content.text) >= min`:
the selector-targeted result qualifies only when its text is present,
non-empty, and at least `min_content_length` long. -/
def selectorQualifies (cfg : ExtractorConfig) (c : ExtractedContent) : Bool :=
  match c.text with
  | none => false
  | some t => !(t == "") && decide (cfg.min_content_length ≤ t.length)

/-- The guard `if not content or (content.text and len(content.text) < min)`
after the trafilatura and readability stages: control falls to the next
strategy iff the stage produced nothing, or produced text that is present,
non-empty (truthy) and shorter than `min_content_length`. -/
def needsFallback (cfg : ExtractorConfig) : Option ExtractedContent → Bool
  | none => true
  | some c =>
    match c.text with
    | none => false
    | some t => !(t == "") && decide (t.length < cfg.min_content_length)

/-- One `if not content or (content.text and len(content.text) < min)` step of
the chain: replace the current method/candidate pair by the next strategy's
pair when the current one falls through. -/
def chainStep (cfg : ExtractorConfig) (cur next : String × Option ExtractedContent) :
    String × Option ExtractedContent :=
  if needsFallback cfg cur.2 then next else cur

/-- The trafilatura → readability → whole-body part of `ContentExtractor.extract`,
tracking the `method` variable alongside the current candidate; the surviving
candidate, if any, is cleaned and labelled with the surviving method. -/
def extractFallbackChain (cfg : ExtractorConfig) (strat : StrategyResults) :
    Option ExtractedContent :=
  match chainStep cfg
      (chainStep cfg ("trafilatura", strat.trafilatura) ("readability", strat.readability))
      ("beautifulsoup", strat.body_soup) with
  | (m, some c) => some { clean_content cfg c with extraction_method := some m }
  | (_, none) => none

/-- `ContentExtractor.extract`: empty/whitespace-only input yields no content;
then the selector-targeted soup strategy is tried and accepted when it
qualifies, else the fallback chain runs. -/
def extract (cfg : ExtractorConfig) (strat : StrategyResults) (html : String) :
    Option ExtractedContent :=
  if html = "" ∨ strip html = "" then none
  else
    match strat.selector_soup with
    | some c =>
      if selectorQualifies cfg c then
        some { clean_content cfg c with extraction_method := some "css_selector" }
      else extractFallbackChain cfg strat
    | none => extractFallbackChain cfg strat

/-! ## URL utilities (src/doc_retrieval/utils/url_utils.py)

URLs are modelled at the level of their `urllib.parse.urlparse` components;
`urlunparse` of the normalized components serves as the deduplication key,
so two URLs share a key iff their normalized component tuples agree. -/

structure ParsedUrl where
  scheme : String
  netloc : String
  path : String
  params : String
  query : String
  fragment : String
deriving DecidableEq

/-- `path.rstrip("/")`: drop every trailing `'/'`. -/
def rstripSlash (s : String) : String :=
  String.mk ((s.data.reverse.dropWhile (fun ch => ch == '/')).reverse)

/-- `normalize_url`: remove the fragment, then remove trailing slashes from
the path except when the path is exactly `"/"`. -/
def normalize_url (u : ParsedUrl) : ParsedUrl :=
  let noFrag : ParsedUrl := { u with fragment := "" }
  let path := if noFrag.path = "/" then "/" else rstripSlash noFrag.path
  { noFrag with path := path }

/-! ## Orchestrator (src/doc_retrieval/orchestrator.py) -/

/-- Substring test on character lists: `startsWithChars pat hay` means `pat`
is an initial segment of `hay`. -/
def startsWithChars : List Char → List Char → Bool
  | [], _ => true
  | _ :: _, [] => false
  | p :: ps, h :: hs => p == h && startsWithChars ps hs

/-- `containsChars pat hay`: `pat` occurs contiguously somewhere in `hay`. -/
def containsChars (pat : List Char) : List Char → Bool
  | [] => pat.isEmpty
  | h :: hs => startsWithChars pat (h :: hs) || containsChars pat hs

/-- Python's `pat in hay` substring test. -/
def strContains (hay pat : String) : Bool :=
  containsChars pat.data hay.data

inductive PageStatus where
  | queued
  | fetching
  | extracting
  | converting
  | done
  | skipped
  | error
deriving DecidableEq

inductive ErrorCategory where
  | timeout
  | rate_limited
  | client_error
  | server_error
  | connection
  | extraction
  | unknown
deriving DecidableEq

/-- `Orchestrator._categorize_error`. -/
def categorize_error (status_code : Int) (error_msg : String) (stage : String) :
    ErrorCategory :=
  if status_code = 429 then .rate_limited
  else if 500 ≤ status_code then .server_error
  else if 400 ≤ status_code ∧ status_code < 500 then .client_error
  else
    let msgLower := pyLower error_msg
    if strContains msgLower "timeout" || strContains msgLower "timed out" then .timeout
    else if ["connect", "refused", "dns", "network", "socket"].any
        (fun kw => strContains msgLower kw) then .connection
    else if stage = "extract" ∨ stage = "pipeline" then .extraction
    else .unknown

/-- `Orchestrator._is_likely_category_url`: `"/category/" in parsed.path.lower()`. -/
def is_likely_category_url (u : ParsedUrl) : Bool :=
  strContains (pyLower u.path) "/category/"

/-- The keyword list of `Orchestrator._is_login_gated`. -/
def LOGIN_KEYWORDS : List String :=
  ["please login", "please log in", "please sign in", "sign in to",
   "authentication required", "log in to continue", "sign in to continue",
   "you must be logged in", "you need to sign in", "login required"]

/-- `Orchestrator._is_login_gated`: short text (< 500 chars) containing a
login keyword. -/
def is_login_gated (content : ExtractedContent) : Bool :=
  let text := content.text.getD ""
  if 500 ≤ text.length then false
  else LOGIN_KEYWORDS.any (fun kw => strContains (pyLower text) kw)

/-- `FormattedPage` (src/doc_retrieval/converter/llm_formatter.py), consumed
as a black box by the orchestrator. -/
structure FormattedPage where
  url : ParsedUrl
  title : Option String := none
  markdown : String := ""
  api_version : Option String := none
deriving DecidableEq

/-- Everything outside the orchestrator that determines how one page's task
unfolds: the fetch outcome, the extractor's result, the formatter's page, the
verdict of the `_is_category_page` markdown heuristic (a regex-based check,
modelled abstractly by its boolean outcome), and an optional unexpected
exception, modelled as raised inside the task before any record is made. -/
structure PageEnv where
  fetchResult : FetchResult
  extracted : Option ExtractedContent
  formatted : FormattedPage
  isCategoryPage : Bool
  pipelineExc : Option String

/-- The bucket lists of `ExtractionResult` that `_process_page` appends to. -/
structure ExtractionResult where
  pages : List FormattedPage := []
  errors : List (ParsedUrl × String × ErrorCategory) := []
  skipped : List ParsedUrl := []
  skipped_categories : List ParsedUrl := []
deriving DecidableEq

/-- `Orchestrator._process_page` for one URL: the URL-pattern pre-filter, the
fetch (with `back_off()` on HTTP 429 failures), the extraction emptiness and
login-gate checks, the category-page check on the formatted output, and the
full-success path ending in `ease_off()`.  Returns the updated result buckets,
the updated shared rate limiter, and the page's final `PageTiming` status. -/
def process_page (res : ExtractionResult) (lim : RateLimiter) (u : ParsedUrl)
    (env : PageEnv) : ExtractionResult × RateLimiter × PageStatus :=
  if is_likely_category_url u then
    ({ res with skipped_categories := res.skipped_categories ++ [u] }, lim, .skipped)
  else
    match env.pipelineExc with
    | some msg =>
      ({ res with errors := res.errors ++ [(u, msg, categorize_error 0 msg "pipeline")] },
       lim, .error)
    | none =>
      let fr := env.fetchResult
      if fr.success then
        match env.extracted with
        | none => ({ res with skipped := res.skipped ++ [u] }, lim, .skipped)
        | some content =>
          if content.html = .nil then
            ({ res with skipped := res.skipped ++ [u] }, lim, .skipped)
          else if is_login_gated content then
            ({ res with skipped := res.skipped ++ [u] }, lim, .skipped)
          else if env.isCategoryPage then
            ({ res with skipped_categories := res.skipped_categories ++ [u] }, lim, .skipped)
          else
            ({ res with pages := res.pages ++ [env.formatted] }, lim.ease_off, .done)
      else
        let lim2 := if fr.status_code = 429 then lim.back_off else lim
        let errorMsg :=
          match fr.error with
          | some e => if e = "" then "HTTP " ++ toString fr.status_code else e
          | none => "HTTP " ++ toString fr.status_code
        ({ res with errors :=
             res.errors ++ [(u, errorMsg, categorize_error fr.status_code errorMsg "fetch")] },
         lim2, .error)

/-- The deduplication loop of `Orchestrator.run`: keep a URL iff its
normalized form was not seen before, accumulating the seen keys. -/
def dedupUrls (seen : List ParsedUrl) : List ParsedUrl → List ParsedUrl
  | [] => []
  | u :: rest =>
    if normalize_url u ∈ seen then dedupUrls seen rest
    else u :: dedupUrls (normalize_url u :: seen) rest

/-- Process every surviving URL in turn, threading the result buckets and the
shared rate limiter, and collecting each page's terminal status (its
`PageTiming`).  The real tasks run concurrently, but each appends to the
shared lists exactly once under cooperative scheduling, so the accounting is
that of a sequential fold. -/
def run_pages (envOf : ParsedUrl → PageEnv) :
    List ParsedUrl → ExtractionResult → RateLimiter →
    ExtractionResult × RateLimiter × List PageStatus
  | [], res, lim => (res, lim, [])
  | u :: rest, res, lim =>
    let step := process_page res lim u (envOf u)
    let next := run_pages envOf rest step.1 step.2.1
    (next.1, next.2.1, step.2.2 :: next.2.2)

/-- `Orchestrator.run`, reduced to its accounting skeleton: deduplicate the
discovered URLs by normalized key, subtract the normalized skip-file set
(empty when no `--skip-urls` file is configured), then process each surviving
URL.  Output writing and the final sort only permute `pages`. -/
def run_pipeline (urls : List ParsedUrl) (skipSet : List ParsedUrl)
    (envOf : ParsedUrl → PageEnv) (lim : RateLimiter) :
    ExtractionResult × RateLimiter × List PageStatus :=
  let unique := dedupUrls [] urls
  let survivors := unique.filter (fun u => normalize_url u ∉ skipSet)
  run_pages envOf survivors {} lim

/-- Total size of the four result buckets. -/
def bucketSum (res : ExtractionResult) : ℕ :=
  res.pages.length + res.errors.length + res.skipped.length +
    res.skipped_categories.length

/-! ## Concrete instances used to evaluate the theorems -/

/-- A fetch oracle whose every call is an HTTP 500 failure. -/
def fetchAlways500 : ℕ → FetchResult := fun _ =>
  { url := "https://docs.example.com/a", final_url := "https://docs.example.com/a",
    html := "", status_code := 500 }

/-- A fetch oracle failing once with HTTP 500, then succeeding. -/
def fetchThenOk : ℕ → FetchResult := fun i =>
  if i = 0 then
    { url := "https://docs.example.com/a", final_url := "https://docs.example.com/a",
      html := "", status_code := 500 }
  else
    { url := "https://docs.example.com/a", final_url := "https://docs.example.com/a",
      html := "<p>ok</p>", status_code := 200 }

/-- A config with threshold 5 and no selectors, for exercising the extractor. -/
def exCfg5 : ExtractorConfig :=
  { content_selectors := [], remove_selectors := [], min_content_length := 5 }

/-- A config with threshold 10 and no selectors. -/
def exCfg10 : ExtractorConfig :=
  { content_selectors := [], remove_selectors := [], min_content_length := 10 }

/-- A trafilatura candidate whose text is the empty string (its `html` result
was non-null but the plain-text extraction came back empty). -/
def exTrafEmptyText : ExtractedContent :=
  { html := .elemCons "pre" .nil .nil, text := some "" }

/-- Strategy oracle: no selector match, trafilatura yields an empty-text
candidate, nothing else produces a result. -/
def exStratEmptyText : StrategyResults :=
  { selector_soup := none, trafilatura := some exTrafEmptyText,
    readability := none, body_soup := none }

/-- A qualifying selector-targeted candidate. -/
def exSelectorHit : ExtractedContent :=
  { html := .elemCons "article" (.textCons "hello world" .nil) .nil,
    text := some "hello world" }

/-- Strategy oracle where the selector-targeted strategy qualifies. -/
def exStratSelector : StrategyResults :=
  { selector_soup := some exSelectorHit, trafilatura := none,
    readability := none, body_soup := none }

/-- A `<table>` with populated `<tbody>` rows but an empty `<thead>`. -/
def exTable : HForest :=
  .elemCons "table"
    (.elemCons "thead" .nil
      (.elemCons "tbody"
        (.elemCons "tr" (.elemCons "td" (.textCons "Row 1" .nil) .nil) .nil)
        .nil))
    .nil

/-- A `<details>` element whose direct text is empty but whose nested field
elements carry text in their descendants. -/
def exDetails : HForest :=
  .elemCons "details"
    (.elemCons "div" (.elemCons "p" (.textCons "field value" .nil) .nil) .nil)
    .nil

/-- Content whose only payload is a bare `<img>`: cleanup keeps the image but
the plain text comes back empty. -/
def exImgOnly : ExtractedContent :=
  { html := .elemCons "img" .nil .nil, text := some "placeholder" }

/-- Content that cleans to the short text `"hi"`. -/
def exShortText : ExtractedContent :=
  { html := .elemCons "p" (.textCons "hi" .nil) .nil, text := some "hi" }

/-- A documentation page URL (path `/a`). -/
def exUrlA : ParsedUrl :=
  { scheme := "https", netloc := "docs.example.com", path := "/a",
    params := "", query := "", fragment := "" }

/-- A second documentation page URL (path `/b`). -/
def exUrlB : ParsedUrl :=
  { scheme := "https", netloc := "docs.example.com", path := "/b",
    params := "", query := "", fragment := "" }

/-- The site root without a trailing slash (empty path). -/
def exRootBare : ParsedUrl :=
  { scheme := "https", netloc := "docs.example.com", path := "",
    params := "", query := "", fragment := "" }

/-- The site root with a trailing slash (path `/`). -/
def exRootSlash : ParsedUrl :=
  { scheme := "https", netloc := "docs.example.com", path := "/",
    params := "", query := "", fragment := "" }

/-- A guide URL with a trailing slash. -/
def exGuideSlash : ParsedUrl :=
  { scheme := "https", netloc := "docs.example.com", path := "/docs/guide/",
    params := "", query := "", fragment := "" }

/-- The same guide URL without the trailing slash. -/
def exGuideBare : ParsedUrl :=
  { scheme := "https", netloc := "docs.example.com", path := "/docs/guide",
    params := "", query := "", fragment := "" }

/-- A successful fetch of a documentation page. -/
def exFetchOk : FetchResult :=
  { url := "https://docs.example.com/a", final_url := "https://docs.example.com/a",
    html := "<html><body><p>Documentation body text.</p></body></html>",
    status_code := 200 }

/-- Ordinary extracted content: non-empty html, plain text with no login
keyword. -/
def exContentOk : ExtractedContent :=
  { html := .elemCons "p" (.textCons "Documentation body text." .nil) .nil,
    text := some "Documentation body text." }

/-- The formatted page the formatter returns for the sample content. -/
def exPageOk : FormattedPage :=
  { url := exUrlA, title := some "Docs", markdown := "Documentation body text." }

/-- A page environment in which everything succeeds. -/
def exEnvOk : PageEnv :=
  { fetchResult := exFetchOk, extracted := some exContentOk,
    formatted := exPageOk, isCategoryPage := false, pipelineExc := none }

/-- A page environment where the fetch succeeds but extraction finds no
usable content. -/
def exEnvNoContent : PageEnv :=
  { fetchResult := exFetchOk, extracted := none,
    formatted := exPageOk, isCategoryPage := false, pipelineExc := none }

/-- A throttled limiter state: delay `4` above the configured baseline `1`. -/
def exLimThrottled : RateLimiter :=
  { delay_seconds := 4, original_delay := 1, backoff_count := 2, peak_delay := 4 }

/-! ## Rate limiter lemmas -/

theorem backoff_preserves_original (d : ℚ) (k : ℕ) :
    (RateLimiter.back_off^[k] (RateLimiter.init d)).original_delay = d := by
  induction k with
  | zero => rfl
  | succ k ih =>
    rw [Function.iterate_succ_apply']
    simpa [RateLimiter.back_off] using ih

theorem backoff_count_eq (d : ℚ) (k : ℕ) :
    (RateLimiter.back_off^[k] (RateLimiter.init d)).backoff_count = k := by
  induction k with
  | zero => rfl
  | succ k ih =>
    rw [Function.iterate_succ_apply']
    simpa [RateLimiter.back_off] using ih

theorem backoff_iterate_delay (d : ℚ) (k : ℕ) :
    (RateLimiter.back_off^[k + 1] (RateLimiter.init d)).delay_seconds
      = min (d * 2 ^ (k + 1)) 5 := by
  induction k with
  | zero =>
    simp [Function.iterate_one, RateLimiter.back_off, RateLimiter.init, MAX_DELAY, pow_one]
  | succ k ih =>
    rw [Function.iterate_succ_apply']
    show min ((RateLimiter.back_off^[k + 1] (RateLimiter.init d)).delay_seconds * 2) MAX_DELAY
      = min (d * 2 ^ (k + 1 + 1)) 5
    rw [ih]
    rcases le_total (d * 2 ^ (k + 1)) 5 with h | h
    · rw [min_eq_left h]
      have : d * 2 ^ (k + 1) * 2 = d * 2 ^ (k + 1 + 1) := by ring
      rw [this]; rfl
    · rw [min_eq_right h]
      have e : d * 2 ^ (k + 1 + 1) = d * 2 ^ (k + 1) * 2 := by ring
      have h2 : (5 : ℚ) ≤ d * 2 ^ (k + 1 + 1) := by rw [e]; linarith
      rw [min_eq_right h2]
      show min ((5 : ℚ) * 2) 5 = 5
      norm_num

theorem backoff_delay_mono (d : ℚ) (hd : 0 ≤ d) {i k : ℕ} (h : i ≤ k) :
    (RateLimiter.back_off^[i + 1] (RateLimiter.init d)).delay_seconds
      ≤ (RateLimiter.back_off^[k + 1] (RateLimiter.init d)).delay_seconds := by
  rw [backoff_iterate_delay, backoff_iterate_delay]
  exact min_le_min
    (mul_le_mul_of_nonneg_left
      (pow_le_pow_right₀ (by norm_num : (1 : ℚ) ≤ 2) (Nat.succ_le_succ h)) hd)
    le_rfl

theorem backoff_iterate_peak (d : ℚ) (hd : 0 < d) (k : ℕ) :
    (RateLimiter.back_off^[k] (RateLimiter.init d)).peak_delay
      = max d (RateLimiter.back_off^[k] (RateLimiter.init d)).delay_seconds := by
  induction k with
  | zero => simp [RateLimiter.init]
  | succ k ih =>
    rw [Function.iterate_succ_apply']
    set r := RateLimiter.back_off^[k] (RateLimiter.init d) with hr
    show max r.peak_delay (min (r.delay_seconds * 2) MAX_DELAY)
      = max d (min (r.delay_seconds * 2) MAX_DELAY)
    rw [ih]
    have hle : r.delay_seconds ≤ max d (min (r.delay_seconds * 2) MAX_DELAY) := by
      cases k with
      | zero =>
        have : r.delay_seconds = d := rfl
        rw [this]; exact le_max_left _ _
      | succ m =>
        refine le_trans ?_ (le_max_right _ _)
        have h2 : min (r.delay_seconds * 2) MAX_DELAY
            = (RateLimiter.back_off^[m + 1 + 1] (RateLimiter.init d)).delay_seconds := by
          rw [Function.iterate_succ_apply']; rfl
        rw [h2, hr]
        exact backoff_delay_mono d hd.le (Nat.le_succ m)
    rw [max_assoc, max_comm r.delay_seconds, ← max_assoc, max_eq_left hle]

/-- C2 (amended): from a `RateLimiter` constructed with initial delay `d > 0`,
applying `back_off` `k` times yields `delay_seconds = min (d * 2 ^ k) 5`
whenever `k ≥ 1` or `d ≤ 5` (for `k = 0` and `d > 5` the delay is still `d`);
it increments `backoff_count` by `k`; `peak_delay` equals the maximum over all
values taken by `delay_seconds` (it equals `max d delay`, an upper bound of
every intermediate delay); one `ease_off` then yields
`max (delay_seconds / 2) d`, never below `d`. -/
theorem rate_limiter_backoff_easeoff (d : ℚ) (k : ℕ) (hd : 0 < d) (hk : 1 ≤ k ∨ d ≤ 5) :
    (RateLimiter.back_off^[k] (RateLimiter.init d)).delay_seconds = min (d * 2 ^ k) 5 ∧
    (RateLimiter.back_off^[k] (RateLimiter.init d)).backoff_count = k ∧
    (RateLimiter.back_off^[k] (RateLimiter.init d)).peak_delay
      = max d (RateLimiter.back_off^[k] (RateLimiter.init d)).delay_seconds ∧
    (∀ i, i ≤ k → (RateLimiter.back_off^[i] (RateLimiter.init d)).delay_seconds
      ≤ (RateLimiter.back_off^[k] (RateLimiter.init d)).peak_delay) ∧
    ((RateLimiter.back_off^[k] (RateLimiter.init d)).ease_off).delay_seconds
      = max ((RateLimiter.back_off^[k] (RateLimiter.init d)).delay_seconds / 2) d ∧
    d ≤ ((RateLimiter.back_off^[k] (RateLimiter.init d)).ease_off).delay_seconds := by
  refine ⟨?_, backoff_count_eq d k, backoff_iterate_peak d hd k, ?_, ?_, ?_⟩
  · cases k with
    | zero =>
      have h5 : d ≤ 5 := by
        rcases hk with h | h
        · exact absurd h (by norm_num)
        · exact h
      show d = min (d * 2 ^ 0) 5
      rw [pow_zero, mul_one, min_eq_left h5]
    | succ m => exact backoff_iterate_delay d m
  · intro i hi
    rw [backoff_iterate_peak d hd k]
    cases i with
    | zero => exact le_max_left _ _
    | succ j =>
      cases k with
      | zero => exact absurd hi (by omega)
      | succ m =>
        refine le_trans (backoff_delay_mono d hd.le (Nat.succ_le_succ_iff.mp hi)) ?_
        exact le_max_right _ _
  · show max ((RateLimiter.back_off^[k] (RateLimiter.init d)).delay_seconds / 2)
        (RateLimiter.back_off^[k] (RateLimiter.init d)).original_delay = _
    rw [backoff_preserves_original d k]
  · show d ≤ max ((RateLimiter.back_off^[k] (RateLimiter.init d)).delay_seconds / 2)
        (RateLimiter.back_off^[k] (RateLimiter.init d)).original_delay
    rw [backoff_preserves_original d k]
    exact le_max_right _ _

/-- C2 counterexample: constructed with initial delay `6` and `back_off`
applied `k = 0` times, `delay_seconds` is `6`, while the claimed formula
`min (d * 2 ^ k) 5` evaluates to `5`. -/
theorem rate_limiter_backoff_formula_cex :
    (RateLimiter.back_off^[0] (RateLimiter.init 6)).delay_seconds = 6 ∧
    min ((6 : ℚ) * 2 ^ 0) 5 = 5 ∧ (6 : ℚ) ≠ 5 :=
  ⟨rfl, by norm_num, by norm_num⟩

/-- Witness for C2: the amended statement evaluated at `d = 2`, `k = 3`. -/
theorem rate_limiter_backoff_easeoff_witness :
    (RateLimiter.back_off^[3] (RateLimiter.init 2)).delay_seconds = min ((2 : ℚ) * 2 ^ 3) 5 :=
  (rate_limiter_backoff_easeoff 2 3 (by norm_num) (Or.inl (by norm_num))).1

/-- The adaptive-delay invariant preserved by each `back_off` / `ease_off`. -/
theorem limiter_op_preserves_inv (d : ℚ) (hd : 0 < d) (h5 : d ≤ 5) (r : RateLimiter)
    (h : r.original_delay = d ∧ d ≤ r.delay_seconds ∧ r.delay_seconds ≤ 5 ∧
      r.delay_seconds ≤ r.peak_delay) (op : LimiterOp) :
    (op.apply r).original_delay = d ∧ d ≤ (op.apply r).delay_seconds ∧
      (op.apply r).delay_seconds ≤ 5 ∧ (op.apply r).delay_seconds ≤ (op.apply r).peak_delay := by
  obtain ⟨ho, hlo, hhi, hpk⟩ := h
  cases op with
  | backoff =>
    refine ⟨ho, ?_, ?_, ?_⟩
    · show d ≤ min (r.delay_seconds * 2) MAX_DELAY
      exact le_min (by linarith) h5
    · exact min_le_right _ _
    · exact le_max_right _ _
  | easeoff =>
    refine ⟨ho, ?_, ?_, ?_⟩
    · show d ≤ max (r.delay_seconds / 2) r.original_delay
      rw [ho]; exact le_max_right _ _
    · show max (r.delay_seconds / 2) r.original_delay ≤ 5
      rw [ho]; exact max_le (by linarith) h5
    · show max (r.delay_seconds / 2) r.original_delay ≤ r.peak_delay
      rw [ho]; exact le_trans (max_le (by linarith) hlo) hpk

/-- The invariant holds after any call sequence, starting from any invariant
state. -/
theorem runOps_preserves_inv (d : ℚ) (hd : 0 < d) (h5 : d ≤ 5) (ops : List LimiterOp) :
    ∀ r : RateLimiter,
      (r.original_delay = d ∧ d ≤ r.delay_seconds ∧ r.delay_seconds ≤ 5 ∧
        r.delay_seconds ≤ r.peak_delay) →
      ((runOps r ops).original_delay = d ∧ d ≤ (runOps r ops).delay_seconds ∧
        (runOps r ops).delay_seconds ≤ 5 ∧
        (runOps r ops).delay_seconds ≤ (runOps r ops).peak_delay) := by
  induction ops with
  | nil => intro r h; exact h
  | cons op rest ih =>
    intro r h
    exact ih (op.apply r) (limiter_op_preserves_inv d hd h5 r h op)

/-- C10: for a limiter constructed with `0 < d ≤ 5`, every sequence of
`back_off` / `ease_off` calls keeps `d ≤ delay_seconds ≤ 5` and
`delay_seconds ≤ peak_delay`; and for a baseline above the cap the lower
bound fails, because `back_off` caps the delay at `5` below the baseline. -/
theorem rate_limiter_invariant (d : ℚ) (ops : List LimiterOp) (hd : 0 < d) (h5 : d ≤ 5) :
    d ≤ (runOps (RateLimiter.init d) ops).delay_seconds ∧
    (runOps (RateLimiter.init d) ops).delay_seconds ≤ 5 ∧
    (runOps (RateLimiter.init d) ops).delay_seconds
      ≤ (runOps (RateLimiter.init d) ops).peak_delay ∧
    ∃ d2 : ℚ, 5 < d2 ∧ ((RateLimiter.init d2).back_off).delay_seconds < d2 := by
  have h := runOps_preserves_inv d hd h5 ops (RateLimiter.init d) ⟨rfl, le_refl d, h5, le_refl d⟩
  refine ⟨h.2.1, h.2.2.1, h.2.2.2, 6, by norm_num, ?_⟩
  show min ((6 : ℚ) * 2) MAX_DELAY < 6
  show min ((6 : ℚ) * 2) 5 < 6
  norm_num

/-- Witness for C10: the invariant evaluated at `d = 1` with one back-off
followed by one ease-off. -/
theorem rate_limiter_invariant_witness :
    (1 : ℚ) ≤ (runOps (RateLimiter.init 1) [LimiterOp.backoff, LimiterOp.easeoff]).delay_seconds :=
  (rate_limiter_invariant 1 [LimiterOp.backoff, LimiterOp.easeoff] one_pos (by norm_num)).1

/-! ## Retry loop lemmas -/

theorem stamp_success (r : FetchResult) (n : ℕ) : (stamp r n).success = r.success := rfl

theorem stamp_retryable (r : FetchResult) (n : ℕ) : is_retryable (stamp r n) = is_retryable r :=
  rfl

theorem stamp_attempts (r : FetchResult) (n : ℕ) : (stamp r n).attempts = n := rfl

theorem retryLoop_spec (fetch : ℕ → FetchResult) :
    ∀ (fuel attempt : ℕ) (last : FetchResult), 1 ≤ fuel →
      attempt + 1 ≤ (retryLoop fetch fuel attempt last).2 ∧
      (retryLoop fetch fuel attempt last).2 ≤ attempt + fuel ∧
      (retryLoop fetch fuel attempt last).1
        = stamp (fetch ((retryLoop fetch fuel attempt last).2 - 1))
            (retryLoop fetch fuel attempt last).2 ∧
      (∀ i, attempt ≤ i → i + 1 < (retryLoop fetch fuel attempt last).2 →
        (fetch i).success = false ∧ is_retryable (fetch i) = true) ∧
      ((retryLoop fetch fuel attempt last).1.success = false →
        is_retryable (retryLoop fetch fuel attempt last).1 = true →
        (retryLoop fetch fuel attempt last).2 = attempt + fuel) := by
  intro fuel
  induction fuel with
  | zero => intro attempt last h; exact absurd h (by norm_num)
  | succ m ih =>
    intro attempt last _
    rw [retryLoop]
    by_cases hs : (stamp (fetch attempt) (attempt + 1)).success = true
    · simp only [hs, if_true]
      refine ⟨le_refl _, by omega, by simp, ?_, ?_⟩
      · intro i hi hlt; omega
      · intro hfail _
        exact absurd hfail (by simp)
    · have hs' : (stamp (fetch attempt) (attempt + 1)).success = false := by
        simpa using hs
      simp only [hs', Bool.false_eq_true, if_false]
      by_cases hr : is_retryable (stamp (fetch attempt) (attempt + 1)) = true
      · simp only [hr, if_true]
        cases m with
        | zero =>
          rw [retryLoop]
          refine ⟨le_refl _, by omega, ?_, ?_, ?_⟩
          · simp [stamp_attempts]
          · intro i hi hlt; omega
          · intro _ _; omega
        | succ m' =>
          obtain ⟨h1, h2, h3, h4, h5⟩ := ih (attempt + 1)
            (stamp (fetch attempt) (attempt + 1)) (by omega)
          refine ⟨by omega, by omega, h3, ?_, ?_⟩
          · intro i hi hlt
            rcases Nat.eq_or_lt_of_le hi with heq | hlt2
            · subst heq
              refine ⟨?_, ?_⟩
              · rw [← stamp_success (fetch attempt) (attempt + 1)]; exact hs'
              · rw [← stamp_retryable (fetch attempt) (attempt + 1)]; exact hr
            · exact h4 i hlt2 hlt
          · intro ha hb
            have := h5 ha hb
            omega
      · have hr' : is_retryable (stamp (fetch attempt) (attempt + 1)) = false := by
          simpa using hr
        simp only [hr', Bool.false_eq_true, if_false]
        refine ⟨le_refl _, by omega, by simp, ?_, ?_⟩
        · intro i hi hlt; omega
        · intro _ hb
          exact hb.elim

/-- C6: `fetch_with_retry(url, max_retries, base_delay)` makes between `1`
and `max_retries + 1` fetch calls; the returned result is the last call with
its `attempts` field equal to the number of calls performed; every call
before the last was a failure satisfying the retryable condition (HTTP 429,
HTTP ≥ 500, or status 0 with a non-empty error) — in particular the first
success is returned immediately and a non-retryable failure is returned
without another attempt; and when the returned result is itself a retryable
failure, the attempt budget was exhausted. -/
theorem fetch_with_retry_spec (fetch : ℕ → FetchResult) (url : String)
    (max_retries : ℕ) (base_delay : ℚ) :
    1 ≤ (fetch_with_retry fetch url max_retries base_delay).2 ∧
    (fetch_with_retry fetch url max_retries base_delay).2 ≤ max_retries + 1 ∧
    (fetch_with_retry fetch url max_retries base_delay).1.attempts
      = (fetch_with_retry fetch url max_retries base_delay).2 ∧
    (fetch_with_retry fetch url max_retries base_delay).1
      = stamp (fetch ((fetch_with_retry fetch url max_retries base_delay).2 - 1))
          (fetch_with_retry fetch url max_retries base_delay).2 ∧
    (∀ i, i + 1 < (fetch_with_retry fetch url max_retries base_delay).2 →
      (fetch i).success = false ∧ is_retryable (fetch i) = true) ∧
    ((fetch_with_retry fetch url max_retries base_delay).1.success = false →
      is_retryable (fetch_with_retry fetch url max_retries base_delay).1 = true →
      (fetch_with_retry fetch url max_retries base_delay).2 = max_retries + 1) := by
  unfold fetch_with_retry
  obtain ⟨h1, h2, h3, h4, h5⟩ :=
    retryLoop_spec fetch (max_retries + 1) 0 (noAttemptsResult url) (by omega)
  refine ⟨h1, by omega, ?_, h3, ?_, ?_⟩
  · rw [h3, stamp_attempts]
  · intro i hlt
    exact h4 i (Nat.zero_le i) hlt
  · intro ha hb
    have := h5 ha hb
    omega

/-- Witness for C6: with an always-HTTP-500 oracle and `max_retries = 2`, the
budget is exhausted: exactly `3` calls are made. -/
theorem fetch_with_retry_spec_witness :
    (fetch_with_retry fetchAlways500 "https://docs.example.com/a" 2 1).2 = 2 + 1 :=
  (fetch_with_retry_spec fetchAlways500 "https://docs.example.com/a" 2 1).2.2.2.2.2
    (by decide) (by decide)

/-! ## URL normalization and deduplication lemmas -/

theorem rstripSlash_append_slash (s : String) : rstripSlash (s ++ "/") = rstripSlash s := by
  unfold rstripSlash
  apply congrArg
  have h1 : (s ++ "/").data = s.data ++ ['/'] := by
    rw [String.data_append]
  rw [h1, List.reverse_append]
  simp [List.dropWhile_cons]

theorem normalize_url_eq (u : ParsedUrl) :
    normalize_url u
      = ⟨u.scheme, u.netloc, if u.path = "/" then "/" else rstripSlash u.path,
         u.params, u.query, ""⟩ := rfl

theorem dedup_countP_of_mem (key : ParsedUrl) :
    ∀ (urls seen : List ParsedUrl), key ∈ seen →
      (dedupUrls seen urls).countP (fun v => normalize_url v == key) = 0 := by
  intro urls
  induction urls with
  | nil => intro seen _; rfl
  | cons u rest ih =>
    intro seen h
    rw [dedupUrls]
    by_cases hm : normalize_url u ∈ seen
    · rw [if_pos hm]; exact ih seen h
    · rw [if_neg hm, List.countP_cons]
      have hne : (normalize_url u == key) = false := by
        have : normalize_url u ≠ key := fun he => hm (he ▸ h)
        simp [this]
      rw [hne]
      simpa using ih (normalize_url u :: seen) (List.mem_cons_of_mem _ h)

theorem dedup_countP (key : ParsedUrl) :
    ∀ (urls seen : List ParsedUrl), key ∉ seen →
      (dedupUrls seen urls).countP (fun v => normalize_url v == key)
        = min (urls.countP (fun v => normalize_url v == key)) 1 := by
  intro urls
  induction urls with
  | nil => intro seen _; rfl
  | cons u rest ih =>
    intro seen h
    rw [dedupUrls, List.countP_cons]
    by_cases hm : normalize_url u ∈ seen
    · rw [if_pos hm]
      have hne : (normalize_url u == key) = false := by
        have : normalize_url u ≠ key := fun he => h (he ▸ hm)
        simp [this]
      rw [hne, ih seen h]
      simp
    · rw [if_neg hm, List.countP_cons]
      by_cases hk : normalize_url u = key
      · have hk' : (normalize_url u == key) = true := by simp [hk]
        rw [hk', dedup_countP_of_mem key rest (normalize_url u :: seen) (by simp [hk])]
        simp
      · have hk' : (normalize_url u == key) = false := by simp [hk]
        rw [hk', ih (normalize_url u :: seen) (by simp [h, Ne.symm hk, hk])]
        simp

theorem dedup_find (key : ParsedUrl) :
    ∀ (urls seen : List ParsedUrl), key ∉ seen →
      (dedupUrls seen urls).find? (fun v => normalize_url v == key)
        = urls.find? (fun v => normalize_url v == key) := by
  intro urls
  induction urls with
  | nil => intro seen _; rfl
  | cons u rest ih =>
    intro seen h
    rw [dedupUrls]
    by_cases hm : normalize_url u ∈ seen
    · have hne : (normalize_url u == key) = false := by
        have h2 : normalize_url u ≠ key := fun he => h (he ▸ hm)
        simp [h2]
      rw [if_pos hm, ih seen h, List.find?_cons]
      simp [hne]
    · rw [if_neg hm]
      by_cases hk : normalize_url u = key
      · have hk' : (normalize_url u == key) = true := by simp [hk]
        rw [List.find?_cons, List.find?_cons]
        simp [hk']
      · have hk' : (normalize_url u == key) = false := by simp [hk]
        rw [List.find?_cons, List.find?_cons]
        simp only [hk']
        exact ih (normalize_url u :: seen) (by simp [h, Ne.symm hk])

/-- C9 (amended): two distinct URLs that differ only by a fragment, or only by
a trailing slash on a non-root path (the shorter path neither empty nor `"/"`),
normalize to the same key, and the orchestrator's deduplication keeps exactly
one URL with that key — the first occurrence.  (The pair with paths `""` and
`"/"` is excluded: those normalize to distinct keys, see the counterexample.) -/
theorem url_dedup_variant_spec (u1 u2 : ParsedUrl)
    (h : (u1.scheme = u2.scheme ∧ u1.netloc = u2.netloc ∧ u1.params = u2.params ∧
          u1.query = u2.query ∧ u1.fragment = u2.fragment ∧
          u1.path = u2.path ++ "/" ∧ u2.path ≠ "" ∧ u2.path ≠ "/")
       ∨ (u1.scheme = u2.scheme ∧ u1.netloc = u2.netloc ∧ u1.params = u2.params ∧
          u1.query = u2.query ∧ u1.path = u2.path ∧ u1.fragment ≠ u2.fragment)) :
    normalize_url u1 = normalize_url u2 ∧
    ∀ urls : List ParsedUrl, u1 ∈ urls →
      (dedupUrls [] urls).countP (fun v => normalize_url v == normalize_url u1) = 1 ∧
      (dedupUrls [] urls).find? (fun v => normalize_url v == normalize_url u1)
        = urls.find? (fun v => normalize_url v == normalize_url u1) := by
  constructor
  · rcases h with ⟨hs, hn, hp, hq, _, hpath, hne, hnr⟩ | ⟨hs, hn, hp, hq, hpath, _⟩
    · have h1 : u1.path ≠ "/" := by
        intro he
        apply hne
        have he2 : u2.path ++ "/" = "/" := hpath.symm.trans he
        have hd := congrArg String.data he2
        rw [String.data_append] at hd
        exact String.ext (List.append_left_eq_self.mp hd)
      rw [normalize_url_eq, normalize_url_eq, if_neg h1, if_neg hnr, hpath,
        rstripSlash_append_slash, hs, hn, hp, hq]
    · rw [normalize_url_eq, normalize_url_eq, hs, hn, hp, hq, hpath]
  · intro urls hu
    constructor
    · rw [dedup_countP (normalize_url u1) urls [] (by simp)]
      have hpos : 0 < urls.countP (fun v => normalize_url v == normalize_url u1) :=
        List.countP_pos_iff.mpr ⟨u1, hu, by simp⟩
      omega
    · exact dedup_find (normalize_url u1) urls [] (by simp)

/-- C9 counterexample: the site root without a trailing slash (empty path)
and with a trailing slash (path `"/"`) differ only by the trailing slash,
yet they normalize to distinct keys and deduplication keeps both, so two
pages are processed. -/
theorem url_root_slash_cex :
    exRootSlash.path = exRootBare.path ++ "/" ∧
    exRootBare ≠ exRootSlash ∧
    normalize_url exRootBare ≠ normalize_url exRootSlash ∧
    dedupUrls [] [exRootBare, exRootSlash] = [exRootBare, exRootSlash] := by
  refine ⟨by decide, by decide, by decide, by decide⟩

/-- Witness for C9: the guide URL with and without a trailing slash share a
normalized key, and a list containing both deduplicates to one entry with
that key. -/
theorem url_dedup_variant_spec_witness :
    normalize_url exGuideSlash = normalize_url exGuideBare ∧
    (dedupUrls [] [exGuideSlash, exGuideBare]).countP
      (fun v => normalize_url v == normalize_url exGuideSlash) = 1 := by
  have h := url_dedup_variant_spec exGuideSlash exGuideBare (Or.inl (by decide))
  exact ⟨h.1, (h.2 [exGuideSlash, exGuideBare] (by decide)).1⟩

/-! ## Cleanup pass lemmas -/

theorem textPieces_cleanForest : ∀ f, textPieces (cleanForest f) = textPieces f := by
  intro f
  induction f with
  | nil => rfl
  | textCons s rest ih => simp only [cleanForest, textPieces, ih]
  | elemCons t cs rest ihc ihr =>
    simp only [cleanForest]
    split_ifs with h1 h2 h3
    · simp only [textPieces, ihc, ihr]
    · simp only [textPieces, ihc, ihr]
    · have hcs : textPieces cs = [] := ihc.symm.trans h3.1
      simp only [textPieces, ihr, hcs, List.nil_append]
    · simp only [textPieces, ihc, ihr]

theorem hasImg_imp_hasMedia : ∀ f, hasImgElem f = true → hasMediaElem f = true := by
  intro f
  induction f with
  | nil => simp [hasImgElem]
  | textCons s rest ih =>
    simp only [hasImgElem, hasMediaElem]
    exact ih
  | elemCons t cs rest ihc ihr =>
    simp only [hasImgElem, hasMediaElem, Bool.or_eq_true]
    rintro ((h | h) | h)
    · tauto
    · have := ihc h; tauto
    · have := ihr h; tauto

theorem hasImg_cleanForest : ∀ f, hasImgElem f = true → hasImgElem (cleanForest f) = true := by
  intro f
  induction f with
  | nil => simp [hasImgElem]
  | textCons s rest ih =>
    simp only [cleanForest, hasImgElem]
    exact ih
  | elemCons t cs rest ihc ihr =>
    intro h
    simp only [hasImgElem, Bool.or_eq_true] at h
    simp only [cleanForest]
    split_ifs with h1 h2 h3
    · simp only [hasImgElem, Bool.or_eq_true]
      rcases h with (h | h) | h
      · tauto
      · have := ihc h; tauto
      · have := ihr h; tauto
    · simp only [hasImgElem, Bool.or_eq_true]
      rcases h with (h | h) | h
      · tauto
      · have := ihc h; tauto
      · have := ihr h; tauto
    · rcases h with (h | h) | h
      · exact absurd (by simp [eq_of_beq h]) h2
      · have hmedia := hasImg_imp_hasMedia _ (ihc h)
        rw [h3.2] at hmedia
        exact absurd hmedia (by simp)
      · exact ihr h
    · simp only [hasImgElem, Bool.or_eq_true]
      rcases h with (h | h) | h
      · tauto
      · have := ihc h; tauto
      · have := ihr h; tauto

theorem cleanForest_idem : ∀ f, cleanForest (cleanForest f) = cleanForest f := by
  intro f
  induction f with
  | nil => rfl
  | textCons s rest ih => simp only [cleanForest, ih]
  | elemCons t cs rest ihc ihr =>
    simp only [cleanForest]
    split_ifs with h1 h2 h3
    · simp only [cleanForest, ihc, ihr, if_pos h1]
    · simp only [cleanForest]
      rw [ihc, ihr, if_neg h1, if_pos h2]
    · exact ihr
    · simp only [cleanForest]
      rw [ihc, ihr, if_neg h1, if_neg h2, if_neg h3]

theorem tagFree_removeTags (sels : List String) :
    ∀ f, tagFree sels (removeTags sels f) = true := by
  intro f
  induction f with
  | nil => rfl
  | textCons s rest ih => simp only [removeTags, tagFree]; exact ih
  | elemCons t cs rest ihc ihr =>
    simp only [removeTags]
    split_ifs with h1
    · exact ihr
    · simp only [tagFree, Bool.and_eq_true]
      exact ⟨⟨by simp [h1], ihc⟩, ihr⟩

theorem removeTags_of_tagFree (sels : List String) :
    ∀ f, tagFree sels f = true → removeTags sels f = f := by
  intro f
  induction f with
  | nil => intro _; rfl
  | textCons s rest ih =>
    intro h
    simp only [tagFree] at h
    simp only [removeTags, ih h]
  | elemCons t cs rest ihc ihr =>
    intro h
    simp only [tagFree, Bool.and_eq_true] at h
    obtain ⟨⟨hd, hc⟩, hr⟩ := h
    have hmem : t ∉ sels := by simpa using hd
    simp only [removeTags, if_neg hmem, ihc hc, ihr hr]

theorem tagFree_cleanForest (sels : List String) :
    ∀ f, tagFree sels f = true → tagFree sels (cleanForest f) = true := by
  intro f
  induction f with
  | nil => intro _; rfl
  | textCons s rest ih =>
    intro h
    simp only [tagFree] at h
    simp only [cleanForest, tagFree]
    exact ih h
  | elemCons t cs rest ihc ihr =>
    intro h
    simp only [tagFree, Bool.and_eq_true] at h
    obtain ⟨⟨hd, hc⟩, hr⟩ := h
    simp only [cleanForest]
    split_ifs with h1 h2 h3
    · simp only [tagFree, Bool.and_eq_true]
      exact ⟨⟨hd, ihc hc⟩, ihr hr⟩
    · simp only [tagFree, Bool.and_eq_true]
      exact ⟨⟨hd, ihc hc⟩, ihr hr⟩
    · exact ihr hr
    · simp only [tagFree, Bool.and_eq_true]
      exact ⟨⟨hd, ihc hc⟩, ihr hr⟩

theorem clean_content_of_nil (cfg : ExtractorConfig) (content : ExtractedContent)
    (h : content.html = .nil) : clean_content cfg content = content := by
  rw [clean_content, if_pos h]

theorem clean_content_of_reject (cfg : ExtractorConfig) (content : ExtractedContent)
    (h0 : ¬ content.html = .nil)
    (hg : getText (cleanForest (removeTags cfg.remove_selectors content.html)) ≠ "" ∧
      (getText (cleanForest (removeTags cfg.remove_selectors content.html))).length
        < cfg.min_content_length) :
    clean_content cfg content = { html := .nil, title := content.title, text := some "" } := by
  rw [clean_content, if_neg h0, if_pos hg]

theorem clean_content_of_keep (cfg : ExtractorConfig) (content : ExtractedContent)
    (h0 : ¬ content.html = .nil)
    (hg : ¬ (getText (cleanForest (removeTags cfg.remove_selectors content.html)) ≠ "" ∧
      (getText (cleanForest (removeTags cfg.remove_selectors content.html))).length
        < cfg.min_content_length)) :
    clean_content cfg content
      = { content with
          html := cleanForest (removeTags cfg.remove_selectors content.html),
          text := some (getText (cleanForest (removeTags cfg.remove_selectors content.html))) } := by
  rw [clean_content, if_neg h0, if_neg hg]

/-- C4 (amended): bottom-up pruning never removes an element whose tag is in
the preserved set, nor one of `img`/`br`/`hr`, nor an element whose subtree
has visible text, nor an element containing an `img` descendant, nor an
element whose cleaned subtree still contains an embedded-media descendant;
the table-with-populated-tbody and details-with-nested-text scenarios survive
cleanup unchanged.  (An empty `video`/`audio`/`iframe` element with no media
descendant of its own is itself pruned, and its emptied ancestors may then be
pruned too — see the counterexample.) -/
theorem clean_preserves_structure :
    (∀ tag cs rest, tag ∈ PRESERVE_TAGS →
      cleanForest (.elemCons tag cs rest) = .elemCons tag (cleanForest cs) (cleanForest rest)) ∧
    (∀ tag cs rest, tag ∈ ["img", "br", "hr"] →
      cleanForest (.elemCons tag cs rest) = .elemCons tag (cleanForest cs) (cleanForest rest)) ∧
    (∀ tag cs rest, textPieces cs ≠ [] →
      cleanForest (.elemCons tag cs rest) = .elemCons tag (cleanForest cs) (cleanForest rest)) ∧
    (∀ tag cs rest, hasImgElem cs = true →
      cleanForest (.elemCons tag cs rest) = .elemCons tag (cleanForest cs) (cleanForest rest)) ∧
    (∀ tag cs rest, hasMediaElem (cleanForest cs) = true →
      cleanForest (.elemCons tag cs rest) = .elemCons tag (cleanForest cs) (cleanForest rest)) ∧
    cleanForest exTable = exTable ∧
    cleanForest exDetails = exDetails := by
  refine ⟨?_, ?_, ?_, ?_, ?_, by decide, by decide⟩
  · intro tag cs rest h
    simp only [cleanForest]
    rw [if_pos h]
  · intro tag cs rest h
    simp only [cleanForest]
    split_ifs with h1 <;> rfl
  · intro tag cs rest h
    simp only [cleanForest]
    split_ifs with h1 h2 h3
    · rfl
    · rfl
    · exact absurd ((textPieces_cleanForest cs).symm.trans h3.1) h
    · rfl
  · intro tag cs rest h
    simp only [cleanForest]
    split_ifs with h1 h2 h3
    · rfl
    · rfl
    · have hmedia := hasImg_imp_hasMedia _ (hasImg_cleanForest cs h)
      rw [h3.2] at hmedia
      exact absurd hmedia (by simp)
    · rfl
  · intro tag cs rest h
    simp only [cleanForest]
    split_ifs with h1 h2 h3
    · rfl
    · rfl
    · rw [h3.2] at h
      exact absurd h (by simp)
    · rfl

/-- C4 counterexample: a `div` containing a (childless, empty) `video`
element — so the `div` has an embedded-media descendant in the input — is
removed entirely by the pruning pass: the `video` is pruned first, then the
emptied `div`. -/
theorem clean_removes_media_ancestor_cex :
    hasMediaElem (HForest.elemCons "video" .nil .nil) = true ∧
    cleanForest (HForest.elemCons "div" (.elemCons "video" .nil .nil) .nil) = .nil := by
  refine ⟨by decide, by decide⟩

/-- Witness for C4: the preserved-tag rule applied to a bare `table`. -/
theorem clean_preserves_structure_witness :
    cleanForest (.elemCons "table" .nil .nil)
      = .elemCons "table" (cleanForest .nil) (cleanForest .nil) :=
  clean_preserves_structure.1 "table" .nil .nil (by decide)

/-- C5 (amended): when the cleaned plain text is non-empty yet shorter than
`min_content_length`, `_clean_content` rejects the content (html and text
reset to empty); when the cleaned plain text is empty, or long enough, the
cleaned content is returned as is — in particular a page cleaning to empty
text keeps its (possibly non-empty) cleaned html. -/
theorem clean_content_final_gate (cfg : ExtractorConfig) (content : ExtractedContent)
    (h0 : ¬ content.html = .nil) :
    (getText (cleanForest (removeTags cfg.remove_selectors content.html)) ≠ "" →
      (getText (cleanForest (removeTags cfg.remove_selectors content.html))).length
        < cfg.min_content_length →
      clean_content cfg content = { html := .nil, title := content.title, text := some "" }) ∧
    (getText (cleanForest (removeTags cfg.remove_selectors content.html)) = "" →
      clean_content cfg content
        = { content with
            html := cleanForest (removeTags cfg.remove_selectors content.html),
            text := some (getText (cleanForest (removeTags cfg.remove_selectors content.html))) }) ∧
    (cfg.min_content_length
        ≤ (getText (cleanForest (removeTags cfg.remove_selectors content.html))).length →
      clean_content cfg content
        = { content with
            html := cleanForest (removeTags cfg.remove_selectors content.html),
            text := some (getText (cleanForest (removeTags cfg.remove_selectors content.html))) }) := by
  refine ⟨?_, ?_, ?_⟩
  · intro hne hlt
    exact clean_content_of_reject cfg content h0 ⟨hne, hlt⟩
  · intro hempty
    exact clean_content_of_keep cfg content h0 (fun hc => hc.1 hempty)
  · intro hlen
    exact clean_content_of_keep cfg content h0 (fun hc => absurd hc.2 (by omega))

/-- C5 counterexample: content whose only payload is an `img` cleans to empty
plain text (length `0`, below the threshold `10`), yet the returned object
keeps its non-empty html — the fields are not reset, because the gate
condition `content.text and len(content.text) < min` is falsy for `""`. -/
theorem clean_content_empty_text_cex :
    clean_content exCfg10 exImgOnly
      = { html := .elemCons "img" .nil .nil, title := none, description := none,
          text := some "", extraction_method := none } ∧
    (clean_content exCfg10 exImgOnly).html ≠ .nil ∧
    ((clean_content exCfg10 exImgOnly).text.getD "x").length < exCfg10.min_content_length := by
  refine ⟨by decide, by decide, by decide⟩

/-- Witness for C5: short non-empty cleaned text (`"hi"`, below threshold 10)
is rejected with html and text reset to empty. -/
theorem clean_content_final_gate_witness :
    clean_content exCfg10 exShortText
      = { html := .nil, title := exShortText.title, text := some "" } := by
  have h := clean_content_final_gate exCfg10 exShortText (by decide)
  exact h.1 (by decide) (by decide)

/-- C8: `_clean_content` is idempotent on its text output: re-cleaning an
already-cleaned content yields the same text (the second pass prunes
nothing further). -/
theorem clean_content_idempotent (cfg : ExtractorConfig) (content : ExtractedContent) :
    (clean_content cfg (clean_content cfg content)).text = (clean_content cfg content).text := by
  by_cases h0 : content.html = HForest.nil
  · have he := clean_content_of_nil cfg content h0
    rw [he, he]
  · by_cases hgate : getText (cleanForest (removeTags cfg.remove_selectors content.html)) ≠ "" ∧
        (getText (cleanForest (removeTags cfg.remove_selectors content.html))).length
          < cfg.min_content_length
    · rw [clean_content_of_reject cfg content h0 hgate, clean_content_of_nil cfg _ rfl]
    · rw [clean_content_of_keep cfg content h0 hgate]
      by_cases hpn : cleanForest (removeTags cfg.remove_selectors content.html) = HForest.nil
      · rw [clean_content_of_nil cfg _ hpn]
      · have hfree := tagFree_cleanForest cfg.remove_selectors _
          (tagFree_removeTags cfg.remove_selectors content.html)
        have hrm := removeTags_of_tagFree cfg.remove_selectors _ hfree
        have hcl := cleanForest_idem (removeTags cfg.remove_selectors content.html)
        have hcond : ¬ (getText (cleanForest (removeTags cfg.remove_selectors
            (cleanForest (removeTags cfg.remove_selectors content.html)))) ≠ "" ∧
            (getText (cleanForest (removeTags cfg.remove_selectors
              (cleanForest (removeTags cfg.remove_selectors content.html))))).length
              < cfg.min_content_length) := by
          rw [hrm, hcl]
          exact hgate
        rw [clean_content_of_keep cfg _ hpn hcond]
        show some (getText (cleanForest (removeTags cfg.remove_selectors
            (cleanForest (removeTags cfg.remove_selectors content.html)))))
          = some (getText (cleanForest (removeTags cfg.remove_selectors content.html)))
        rw [hrm, hcl]

/-! ## Extraction fallback chain lemmas -/

theorem extractFallbackChain_cases (cfg : ExtractorConfig) (strat : StrategyResults) :
    (needsFallback cfg strat.trafilatura = false →
      ∃ c, strat.trafilatura = some c ∧
        extractFallbackChain cfg strat
          = some { clean_content cfg c with extraction_method := some "trafilatura" }) ∧
    (needsFallback cfg strat.trafilatura = true →
      needsFallback cfg strat.readability = false →
      ∃ c, strat.readability = some c ∧
        extractFallbackChain cfg strat
          = some { clean_content cfg c with extraction_method := some "readability" }) ∧
    (needsFallback cfg strat.trafilatura = true →
      needsFallback cfg strat.readability = true →
      (∀ c, strat.body_soup = some c →
        extractFallbackChain cfg strat
          = some { clean_content cfg c with extraction_method := some "beautifulsoup" }) ∧
      (strat.body_soup = none → extractFallbackChain cfg strat = none)) := by
  refine ⟨?_, ?_, ?_⟩
  · intro h
    cases htr : strat.trafilatura with
    | none =>
      rw [htr] at h
      exact absurd h (by simp [needsFallback])
    | some c =>
      refine ⟨c, rfl, ?_⟩
      rw [htr] at h
      simp [extractFallbackChain, chainStep, h, htr]
  · intro ht hr
    cases hre : strat.readability with
    | none =>
      rw [hre] at hr
      exact absurd hr (by simp [needsFallback])
    | some c =>
      refine ⟨c, rfl, ?_⟩
      rw [hre] at hr
      simp [extractFallbackChain, chainStep, ht, hr, hre]
  · intro ht hr
    constructor
    · intro c hb
      simp [extractFallbackChain, chainStep, ht, hr, hb]
    · intro hb
      simp [extractFallbackChain, chainStep, ht, hr, hb]

/-- C3 (amended): for every non-empty (non-whitespace) HTML input, `extract`
tries the strategies in the fixed order selector-targeted, trafilatura,
readability, whole-body; the selector-targeted result is accepted only when
its text is present, non-empty and at least `min_content_length` long; the
trafilatura and readability stages fall through only when their candidate is
absent or its text is present, non-empty and shorter than
`min_content_length` (candidates with missing or empty text are accepted);
the whole-body fallback is accepted unconditionally. -/
theorem extract_fallback_order (cfg : ExtractorConfig) (strat : StrategyResults) (html : String)
    (h1 : ¬ (html = "" ∨ strip html = "")) :
    (∀ c, strat.selector_soup = some c → selectorQualifies cfg c = true →
      extract cfg strat html
        = some { clean_content cfg c with extraction_method := some "css_selector" }) ∧
    ((∀ c, strat.selector_soup = some c → selectorQualifies cfg c = false) →
      (needsFallback cfg strat.trafilatura = false →
        ∃ c, strat.trafilatura = some c ∧
          extract cfg strat html
            = some { clean_content cfg c with extraction_method := some "trafilatura" }) ∧
      (needsFallback cfg strat.trafilatura = true →
        needsFallback cfg strat.readability = false →
        ∃ c, strat.readability = some c ∧
          extract cfg strat html
            = some { clean_content cfg c with extraction_method := some "readability" }) ∧
      (needsFallback cfg strat.trafilatura = true →
        needsFallback cfg strat.readability = true →
        (∀ c, strat.body_soup = some c →
          extract cfg strat html
            = some { clean_content cfg c with extraction_method := some "beautifulsoup" }) ∧
        (strat.body_soup = none → extract cfg strat html = none))) := by
  constructor
  · intro c hsel hq
    simp [extract, h1, hsel, hq]
  · intro hnq
    have he : extract cfg strat html = extractFallbackChain cfg strat := by
      rw [extract, if_neg h1]
      cases hsel : strat.selector_soup with
      | none => rfl
      | some c =>
        have hq := hnq c hsel
        simp [hq]
    rw [he]
    exact extractFallbackChain_cases cfg strat

/-- C3 counterexample: with threshold 5, a trafilatura candidate whose plain
text is the empty string (length 0, far below the threshold) is accepted and
returned as the extraction result — the guard
`content.text and len(content.text) < min` is falsy for `""`, so control does
not fall through to the next strategy. -/
theorem extract_accepts_short_text_cex :
    extract exCfg5 exStratEmptyText "<html><body></body></html>"
      = some { html := .elemCons "pre" .nil .nil, title := none, description := none,
               text := some "", extraction_method := some "trafilatura" } ∧
    0 < exCfg5.min_content_length := by
  refine ⟨by decide, by decide⟩

/-- Witness for C3: a qualifying selector-targeted candidate is returned with
method `css_selector`. -/
theorem extract_fallback_order_witness :
    extract exCfg5 exStratSelector "<main>x</main>"
      = some { clean_content exCfg5 exSelectorHit with extraction_method := some "css_selector" } := by
  have h := extract_fallback_order exCfg5 exStratSelector "<main>x</main>" (by decide)
  exact h.1 exSelectorHit rfl (by decide)

/-! ## Orchestrator accounting lemmas -/

theorem process_page_spec (res : ExtractionResult) (lim : RateLimiter) (u : ParsedUrl)
    (env : PageEnv) :
    ((∃ x, (process_page res lim u env).1 = { res with pages := res.pages ++ [x] }) ∧
      (process_page res lim u env).2.2 = PageStatus.done ∧
      (process_page res lim u env).2.1 = lim.ease_off) ∨
    ((∃ e, (process_page res lim u env).1 = { res with errors := res.errors ++ [e] }) ∧
      (process_page res lim u env).2.2 = PageStatus.error ∧
      (env.fetchResult.success = true → (process_page res lim u env).2.1 = lim)) ∨
    ((process_page res lim u env).1 = { res with skipped := res.skipped ++ [u] } ∧
      (process_page res lim u env).2.2 = PageStatus.skipped ∧
      (process_page res lim u env).2.1 = lim) ∨
    ((process_page res lim u env).1
        = { res with skipped_categories := res.skipped_categories ++ [u] } ∧
      (process_page res lim u env).2.2 = PageStatus.skipped ∧
      (process_page res lim u env).2.1 = lim) := by
  by_cases h1 : is_likely_category_url u = true
  · right; right; right
    refine ⟨?_, ?_, ?_⟩ <;> simp [process_page, h1]
  · have h1' : is_likely_category_url u = false := by simpa using h1
    cases hexc : env.pipelineExc with
    | some msg =>
      right; left
      refine ⟨⟨(u, msg, categorize_error 0 msg "pipeline"), ?_⟩, ?_, ?_⟩ <;>
        simp [process_page, h1', hexc]
    | none =>
      by_cases h2 : env.fetchResult.success = true
      · cases hext : env.extracted with
        | none =>
          right; right; left
          refine ⟨?_, ?_, ?_⟩ <;> simp [process_page, h1', hexc, h2, hext]
        | some content =>
          by_cases h3 : content.html = HForest.nil
          · right; right; left
            refine ⟨?_, ?_, ?_⟩ <;> simp [process_page, h1', hexc, h2, hext, h3]
          · by_cases h4 : is_login_gated content = true
            · right; right; left
              refine ⟨?_, ?_, ?_⟩ <;> simp [process_page, h1', hexc, h2, hext, h3, h4]
            · have h4' : is_login_gated content = false := by simpa using h4
              by_cases h5 : env.isCategoryPage = true
              · right; right; right
                refine ⟨?_, ?_, ?_⟩ <;> simp [process_page, h1', hexc, h2, hext, h3, h4', h5]
              · have h5' : env.isCategoryPage = false := by simpa using h5
                left
                refine ⟨⟨env.formatted, ?_⟩, ?_, ?_⟩ <;>
                  simp [process_page, h1', hexc, h2, hext, h3, h4', h5']
      · have h2' : env.fetchResult.success = false := by simpa using h2
        right; left
        refine ⟨⟨(u,
            (match env.fetchResult.error with
            | some e => if e = "" then "HTTP " ++ toString env.fetchResult.status_code else e
            | none => "HTTP " ++ toString env.fetchResult.status_code),
            categorize_error env.fetchResult.status_code
              (match env.fetchResult.error with
              | some e => if e = "" then "HTTP " ++ toString env.fetchResult.status_code else e
              | none => "HTTP " ++ toString env.fetchResult.status_code) "fetch"), ?_⟩, ?_,
          fun hs => absurd hs h2⟩ <;>
          simp [process_page, h1', hexc, h2']

theorem process_page_bucketSum (res : ExtractionResult) (lim : RateLimiter) (u : ParsedUrl)
    (env : PageEnv) :
    bucketSum (process_page res lim u env).1 = bucketSum res + 1 := by
  rcases process_page_spec res lim u env with
    ⟨⟨x, hx⟩, _, _⟩ | ⟨⟨e, he⟩, _, _⟩ | ⟨hs, _, _⟩ | ⟨hs, _, _⟩
  · simp [bucketSum, hx]; omega
  · simp [bucketSum, he]; omega
  · simp [bucketSum, hs]; omega
  · simp [bucketSum, hs]; omega

theorem process_page_terminal (res : ExtractionResult) (lim : RateLimiter) (u : ParsedUrl)
    (env : PageEnv) :
    (process_page res lim u env).2.2 = PageStatus.done ∨
    (process_page res lim u env).2.2 = PageStatus.skipped ∨
    (process_page res lim u env).2.2 = PageStatus.error := by
  rcases process_page_spec res lim u env with ⟨_, h, _⟩ | ⟨_, h, _⟩ | ⟨_, h, _⟩ | ⟨_, h, _⟩ <;>
    tauto

theorem run_pages_spec (envOf : ParsedUrl → PageEnv) :
    ∀ (l : List ParsedUrl) (res : ExtractionResult) (lim : RateLimiter),
      (run_pages envOf l res lim).2.2.length = l.length ∧
      bucketSum (run_pages envOf l res lim).1 = bucketSum res + l.length ∧
      (∀ s ∈ (run_pages envOf l res lim).2.2,
        s = PageStatus.done ∨ s = PageStatus.skipped ∨ s = PageStatus.error) := by
  intro l
  induction l with
  | nil =>
    intro res lim
    refine ⟨rfl, by simp [run_pages], by simp [run_pages]⟩
  | cons v rest ih =>
    intro res lim
    obtain ⟨ihl, ihs, iht⟩ := ih (process_page res lim v (envOf v)).1
      (process_page res lim v (envOf v)).2.1
    refine ⟨?_, ?_, ?_⟩
    · simp only [run_pages, List.length_cons]
      rw [ihl]
    · simp only [run_pages, List.length_cons]
      rw [ihs, process_page_bucketSum]
      omega
    · intro s hs
      simp only [run_pages, List.mem_cons] at hs
      rcases hs with hs | hs
      · rw [hs]
        exact process_page_terminal res lim v (envOf v)
      · exact iht s hs

/-- C1 (amended): at the end of every run, the orchestrator creates exactly
one PageTiming per URL surviving deduplication *and the optional skip-file
filter*; every such page ends in a terminal status (DONE, SKIPPED or ERROR)
and is recorded in exactly one of `pages`, `errors`, `skipped`,
`skipped_categories`; the sum of the four bucket sizes equals the number of
surviving URLs — which equals the number of post-dedup URLs exactly when no
skip file is configured. -/
theorem run_accounting (urls skipSet : List ParsedUrl) (envOf : ParsedUrl → PageEnv)
    (lim : RateLimiter) :
    (run_pipeline urls skipSet envOf lim).2.2.length
      = ((dedupUrls [] urls).filter (fun v => normalize_url v ∉ skipSet)).length ∧
    (∀ s ∈ (run_pipeline urls skipSet envOf lim).2.2,
      s = PageStatus.done ∨ s = PageStatus.skipped ∨ s = PageStatus.error) ∧
    bucketSum (run_pipeline urls skipSet envOf lim).1
      = ((dedupUrls [] urls).filter (fun v => normalize_url v ∉ skipSet)).length ∧
    (skipSet = [] →
      bucketSum (run_pipeline urls skipSet envOf lim).1 = (dedupUrls [] urls).length) ∧
    (∀ (res : ExtractionResult) (lim0 : RateLimiter) (v : ParsedUrl) (env : PageEnv),
      ((∃ x, (process_page res lim0 v env).1 = { res with pages := res.pages ++ [x] }) ∧
        (process_page res lim0 v env).2.2 = PageStatus.done) ∨
      ((∃ e, (process_page res lim0 v env).1 = { res with errors := res.errors ++ [e] }) ∧
        (process_page res lim0 v env).2.2 = PageStatus.error) ∨
      ((process_page res lim0 v env).1 = { res with skipped := res.skipped ++ [v] } ∧
        (process_page res lim0 v env).2.2 = PageStatus.skipped) ∨
      ((process_page res lim0 v env).1
          = { res with skipped_categories := res.skipped_categories ++ [v] } ∧
        (process_page res lim0 v env).2.2 = PageStatus.skipped)) := by
  obtain ⟨hl, hs, ht⟩ := run_pages_spec envOf
    ((dedupUrls [] urls).filter (fun v => normalize_url v ∉ skipSet)) {} lim
  have hsum : bucketSum (run_pipeline urls skipSet envOf lim).1
      = ((dedupUrls [] urls).filter (fun v => normalize_url v ∉ skipSet)).length := by
    show bucketSum (run_pages envOf
      ((dedupUrls [] urls).filter (fun v => normalize_url v ∉ skipSet)) {} lim).1 = _
    rw [hs]
    simp [bucketSum]
  refine ⟨hl, ht, hsum, ?_, ?_⟩
  · intro hempty
    subst hempty
    rw [hsum]
    exact congrArg List.length (List.filter_eq_self.mpr (fun a _ => by simp))
  · intro res lim0 v env
    rcases process_page_spec res lim0 v env with
      ⟨hb, hst, _⟩ | ⟨hb, hst, _⟩ | ⟨hb, hst, _⟩ | ⟨hb, hst, _⟩ <;> tauto

/-- C1 counterexample: with two URLs surviving deduplication but one removed
by a configured skip file, only one page is processed: the bucket sizes sum
to `1` and only one PageTiming status exists, while the post-dedup URL count
is `2`. -/
theorem run_skipfile_cex :
    (dedupUrls [] [exUrlA, exUrlB]).length = 2 ∧
    bucketSum (run_pipeline [exUrlA, exUrlB] [normalize_url exUrlB] (fun _ => exEnvOk)
      (RateLimiter.init 1)).1 = 1 ∧
    (run_pipeline [exUrlA, exUrlB] [normalize_url exUrlB] (fun _ => exEnvOk)
      (RateLimiter.init 1)).2.2.length = 1 := by
  refine ⟨by decide, by decide, by decide⟩

/-- Witness for C1: a run of two distinct pages with no skip file has bucket
sizes summing to the post-dedup URL count. -/
theorem run_accounting_witness :
    bucketSum (run_pipeline [exUrlA, exUrlB] [] (fun _ => exEnvOk) (RateLimiter.init 1)).1
      = (dedupUrls [] [exUrlA, exUrlB]).length :=
  (run_accounting [exUrlA, exUrlB] [] (fun _ => exEnvOk) (RateLimiter.init 1)).2.2.2.1 rfl

/-- C7 (amended): the orchestrator invokes `ease_off()` exactly on pages that
complete the full pipeline with status DONE; a page whose fetch succeeds but
that ends in any other status (no usable content, login-gated, category page)
leaves the rate limiter untouched. -/
theorem ease_off_on_done (res : ExtractionResult) (lim : RateLimiter) (u : ParsedUrl)
    (env : PageEnv) :
    ((process_page res lim u env).2.2 = PageStatus.done →
      (process_page res lim u env).2.1 = lim.ease_off) ∧
    (env.fetchResult.success = true → (process_page res lim u env).2.2 ≠ PageStatus.done →
      (process_page res lim u env).2.1 = lim) := by
  rcases process_page_spec res lim u env with
    ⟨_, hst, hlim⟩ | ⟨_, hst, hlim⟩ | ⟨_, hst, hlim⟩ | ⟨_, hst, hlim⟩
  · exact ⟨fun _ => hlim, fun _ hne => absurd hst hne⟩
  · exact ⟨fun hd => absurd (hst.symm.trans hd) (by decide), fun hs _ => hlim hs⟩
  · exact ⟨fun hd => absurd (hst.symm.trans hd) (by decide), fun _ _ => hlim⟩
  · exact ⟨fun hd => absurd (hst.symm.trans hd) (by decide), fun _ _ => hlim⟩

/-- C7 counterexample: a page whose fetch succeeds but whose extraction
yields no content ends SKIPPED and the (throttled) limiter is not eased off —
`ease_off` is not invoked on this successful fetch. -/
theorem ease_off_skipped_cex :
    exEnvNoContent.fetchResult.success = true ∧
    (process_page {} exLimThrottled exUrlA exEnvNoContent).2.2 = PageStatus.skipped ∧
    (process_page {} exLimThrottled exUrlA exEnvNoContent).2.1 = exLimThrottled ∧
    exLimThrottled.ease_off ≠ exLimThrottled := by
  refine ⟨by decide, by decide, by decide, ?_⟩
  have hne : exLimThrottled.ease_off.delay_seconds ≠ exLimThrottled.delay_seconds := by
    show max ((4 : ℚ) / 2) 1 ≠ 4
    rw [max_eq_left (by norm_num : (1 : ℚ) ≤ 4 / 2)]
    norm_num
  exact fun he => hne (congrArg RateLimiter.delay_seconds he)

/-- Witness for C7: a fully successful page eases off the limiter. -/
theorem ease_off_on_done_witness :
    (process_page {} exLimThrottled exUrlA exEnvOk).2.1 = exLimThrottled.ease_off := by
  have h := ease_off_on_done {} exLimThrottled exUrlA exEnvOk
  exact h.1 (by decide)

end DocRetrieval
